import Mathlib

/-!
Shallow embedding of `spyder_env_manager/spyder/widgets/packages_table.py`:
the `EnvironmentPackagesModel` table model and the `EnvironmentPackagesTable`
view, as far as their state-relevant behaviour goes.

Modelling conventions:
* A Python package dict `{"name": .., "description": .., "version": ..,
  "requested": .., ["index": ..]}` becomes the structure `Package`; the
  `"index"` key is absent until `load_packages` writes it, hence `Option Nat`.
* `to_qvariant()` (the empty QVariant) becomes `QVariant.empty`; the wrapped
  values become the other `QVariant` constructors.
* The model state (`all_packages`, `packages`, `packages_map`) becomes
  `ModelState`.  A Python dict is modelled as an insertion-ordered
  association list with the usual dict semantics (duplicate key overwrites
  the value in place).
* Python's in-place mutation `package["index"] = idx` aliases the records
  shared between the filtered display list and `all_packages`; the pure
  embedding reproduces the effect with `reindexRequested` /
  `assignIndicesFrom` (see the comments on `load_packages`).
* `load_packages` returns the new state paired with a `Bool` that records
  whether `source_model.reset()` was signalled.
-/

namespace PackagesTable

/-- A package record as supplied by the backend.  `index` models the
`"index"` key that `load_packages` writes into the dict; it is `none` for a
record the table has never loaded. -/
structure Package where
  name : String
  description : String
  version : String
  requested : Bool
  index : Option Nat := none
deriving DecidableEq, Repr

instance : Inhabited Package := ⟨⟨"", "", "", false, none⟩⟩

/-- The four backend-supplied fields of a record, without the mutable
`index` field. -/
structure PackageData where
  name : String
  description : String
  version : String
  requested : Bool
deriving DecidableEq, Repr

/-- Project a record to its backend-supplied fields. -/
def Package.core (p : Package) : PackageData :=
  ⟨p.name, p.description, p.version, p.requested⟩

/-- The values `data` / `headerData` can return.  `empty` is `to_qvariant()`
with no argument. -/
inductive QVariant where
  | empty
  | str (s : String)
  | int (n : Int)
  | smallFont
  | color (c : String)
deriving DecidableEq, Repr

/-- The Qt item-data roles the model distinguishes. -/
inductive Role where
  | display
  | textAlignment
  | font
  | backgroundColor
  | other (n : Nat)
deriving DecidableEq, Repr

/-- A `QModelIndex` as seen by `data`: a row, a column. -/
structure MIndex where
  row : Int
  column : Int
deriving DecidableEq, Repr

/-- `QModelIndex.isValid()`: row and column are both non-negative (and the
index carries a model, which every index the view hands to `data` does). -/
def MIndex.isValid (idx : MIndex) : Bool :=
  decide (0 ≤ idx.row) && decide (0 ≤ idx.column)

/-- `int(Qt.AlignCenter)` = `0x0084`. -/
def qtAlignCenter : Int := 132

/-- The state of an `EnvironmentPackagesModel`. -/
structure ModelState where
  all_packages : List Package
  packages : List Package
  packages_map : List (String × Package)
deriving DecidableEq, Repr

/-- `__init__`: all three containers start empty. -/
def initialModel : ModelState := ⟨[], [], []⟩

/-- Column constants `NAME, DESCRIPTION, VERSION = [0, 1, 2]`. -/
def NAME : Int := 0

def DESCRIPTION : Int := 1

def VERSION : Int := 2

/-- `EnvironmentPackagesActions.UpdatePackage`. -/
def UpdatePackage : String := "update_package"

/-- `EnvironmentPackagesActions.UninstallPackage` (typo as in the source). -/
def UninstallPackage : String := "unistall_package"

/-- `EnvironmentPackagesActions.InstallPackageVersion`. -/
def InstallPackageVersion : String := "install_package_version"

/-- `EnvironmentPackagesModel.data`. -/
def modelData (m : ModelState) (idx : MIndex) (role : Role) : QVariant :=
  let row := idx.row
  if ¬ idx.isValid ∨ ¬ (0 ≤ row ∧ row < (m.packages.length : Int)) then
    QVariant.empty
  else
    let package := m.packages.getD row.toNat default
    let column := idx.column
    match role with
    | Role.display =>
        if column = NAME then QVariant.str package.name
        else if column = DESCRIPTION then QVariant.str package.description
        else if column = VERSION then QVariant.str package.version
        else QVariant.empty
    | Role.textAlignment => QVariant.int qtAlignCenter
    | Role.font => QVariant.smallFont
    | Role.backgroundColor =>
        if package.requested then QVariant.color "COLOR_OCCURRENCE_4"
        else QVariant.empty
    | Role.other _ => QVariant.empty

/-- `EnvironmentPackagesModel.rowCount`. -/
def rowCount (m : ModelState) : Nat := m.packages.length

/-- Python dict assignment `m[k] = v`: overwrite in place when the key
exists, append otherwise. -/
def dictInsert (m : List (String × Package)) (k : String) (v : Package) :
    List (String × Package) :=
  if m.any (fun e => e.1 = k) then
    m.map (fun e => if e.1 = k then (k, v) else e)
  else m ++ [(k, v)]

/-- The dict comprehension `{package["name"]: package for package in packages}`. -/
def dictOfList (ps : List Package) : List (String × Package) :=
  ps.foldl (fun m p => dictInsert m p.name p) []

/-- The loop `for idx, package in enumerate(packages): package["index"] = idx`,
run on a list starting from counter `k`. -/
def assignIndicesFrom : Nat → List Package → List Package
  | _, [] => []
  | k, p :: ps => { p with index := some k } :: assignIndicesFrom (k + 1) ps

/-- The effect of the same loop on the full list when the loop itself ran
over `filter(lambda package: package["requested"], packages)`: the filtered
list holds the *same dict objects*, so each requested record of the full
list receives its position among the requested records, and the others are
untouched. -/
def reindexRequested : List Package → Nat → List Package
  | [], _ => []
  | p :: ps, k =>
      if p.requested then
        { p with index := some k } :: reindexRequested ps (k + 1)
      else p :: reindexRequested ps k

/-- `QTableView.sortByColumn` delegates to the model's `sort()` virtual.
`EnvironmentPackagesModel` does not override `QAbstractTableModel.sort`,
whose default implementation does nothing, and no proxy model is installed
(`setModel(self.source_model)` binds the view to the source model
directly), so the call leaves the model state unchanged. -/
def sortByColumn (m : ModelState) (_column : Int) : ModelState := m

/-- `EnvironmentPackagesTable.load_packages`.  `newPackages = none` models
the default argument `packages=None`.  The returned `Bool` records whether
`source_model.reset()` was signalled (i.e. whether a list was installed).

Aliasing: whenever the body that installs a list runs, the pre-filter
`packages` variable and `source_model.all_packages` are the same Python
list object, so the in-place `package["index"] = idx` writes are visible
through `all_packages` as well; `reindexRequested` (for
`only_requested=True`) and `assignIndicesFrom` (otherwise) reproduce the
resulting contents of that shared list, and the displayed list is its
filtered view. -/
def load_packages (m : ModelState) (only_requested : Bool)
    (newPackages : Option (List Package)) : ModelState × Bool :=
  let pkgsArg : List Package := newPackages.getD []
  -- `if packages: self.source_model.all_packages = packages`
  -- (`None` and `[]` are both falsy)
  let m1 := if pkgsArg.isEmpty then m else { m with all_packages := pkgsArg }
  -- `if not packages and self.source_model.all_packages: packages = ...`
  let working := if pkgsArg.isEmpty then m1.all_packages else pkgsArg
  -- `if packages:`
  if working.isEmpty then (m1, false)
  else
    let allNew :=
      if only_requested then reindexRequested working 0
      else assignIndicesFrom 0 working
    let displayed :=
      if only_requested then allNew.filter (fun p => p.requested) else allNew
    let m2 : ModelState :=
      { all_packages := allNew
        packages := displayed
        packages_map := dictOfList displayed }
    (sortByColumn m2 NAME, true)

/-- `EnvironmentPackagesTable.next_row`: returns the row passed to
`selectRow`.  `currentRow` is `self.currentIndex().row()`. -/
def next_row (m : ModelState) (currentRow : Int) : Int :=
  let rows : Int := rowCount m
  let row := if currentRow + 1 = rows then -1 else currentRow
  row + 1

/-- `EnvironmentPackagesTable.previous_row`: returns the row passed to
`selectRow`. -/
def previous_row (m : ModelState) (currentRow : Int) : Int :=
  let rows : Int := rowCount m
  let row := if currentRow = 0 then rows else currentRow
  row - 1

/-- Python list subscription `l[i]` with its negative-index semantics:
`l[-k]` is `l[len(l) - k]`; `none` when the (adjusted) index is out of
range, in which case Python raises `IndexError`. -/
def pyGet (l : List Package) (i : Int) : Option Package :=
  let j : Int := if i < 0 then (l.length : Int) + i else i
  if 0 ≤ j then l.get? j.toNat else none

/-- Outcome of `contextMenuEvent`. -/
inductive MenuOutcome where
  | noMenu
  | menu (actions : List (String × Package))
  | indexError
deriving DecidableEq, Repr

/-- `EnvironmentPackagesTable.contextMenuEvent`.  `rowAtResult` is
`self.rowAt(event.pos().y())`: the visual row under the click, `-1` when
the click hits no row (the visual order equals the model order, since no
proxy model is installed and the model never sorts).  The menu's actions
are the three `(action, packages[row])` pairs the lambdas would emit. -/
def contextMenuEvent (m : ModelState) (rowAtResult : Int) : MenuOutcome :=
  -- `if packages and packages[row]["requested"]:` (short-circuit)
  if m.packages.isEmpty then MenuOutcome.noMenu
  else
    match pyGet m.packages rowAtResult with
    | none => MenuOutcome.indexError
    | some p =>
        if p.requested then
          MenuOutcome.menu
            [(UpdatePackage, p), (UninstallPackage, p),
             (InstallPackageVersion, p)]
        else MenuOutcome.noMenu

/-- Spec-side predicate for C1: the displayed sequence is sorted ascending
by the packages' name strings (`String.le` is the standard lexicographic
order on the strings' characters). -/
def sortedByNameAsc (l : List Package) : Prop :=
  l.Pairwise (fun a b => String.le a.name b.name)

instance (l : List Package) : Decidable (sortedByNameAsc l) :=
  List.instDecidablePairwise l

/-- Sample record (requested): used in concrete witnesses and counterexamples. -/
def pkgA : Package := { name := "a", description := "da", version := "2.0", requested := true }

/-- Sample record (not requested). -/
def pkgB : Package := { name := "b", description := "db", version := "1.0", requested := false }

/-- Sample record (requested). -/
def pkgReq : Package := { name := "p", description := "dp", version := "1", requested := true }

/-- Sample record (not requested). -/
def pkgNoReq : Package := { name := "q", description := "dq", version := "1", requested := false }

/-!  Helper lemmas about `load_packages` and its auxiliary functions. -/

/-- Supplying a non-empty list `a :: t` takes the installing branch. -/
theorem load_packages_some_cons (m : ModelState) (f : Bool) (a : Package)
    (t : List Package) :
    load_packages m f (some (a :: t)) =
      (let allNew :=
        if f then reindexRequested (a :: t) 0 else assignIndicesFrom 0 (a :: t)
       let displayed :=
        if f then allNew.filter (fun p => p.requested) else allNew
       ({ all_packages := allNew, packages := displayed,
          packages_map := dictOfList displayed }, true)) := rfl

/-- Supplying any non-empty list takes the installing branch. -/
theorem load_packages_some_ne (m : ModelState) (f : Bool) (ps : List Package)
    (h : ps ≠ []) :
    load_packages m f (some ps) =
      (let allNew := if f then reindexRequested ps 0 else assignIndicesFrom 0 ps
       let displayed :=
        if f then allNew.filter (fun p => p.requested) else allNew
       ({ all_packages := allNew, packages := displayed,
          packages_map := dictOfList displayed }, true)) := by
  cases ps with
  | nil => exact absurd rfl h
  | cons a t => exact load_packages_some_cons m f a t

/-- With no (or an empty) new list and a non-empty stored list, the stored
list is reloaded exactly as if it had been supplied. -/
theorem load_packages_fallback (m : ModelState) (f : Bool)
    (op : Option (List Package)) (hop : op.getD [] = [])
    (h : m.all_packages ≠ []) :
    load_packages m f op = load_packages m f (some m.all_packages) := by
  obtain ⟨ap, pk, pm⟩ := m
  cases op with
  | none =>
      cases ap with
      | nil => exact absurd rfl h
      | cons a t => rfl
  | some l =>
      have hl : l = [] := hop
      subst hl
      cases ap with
      | nil => exact absurd rfl h
      | cons a t => rfl

/-- With no (or an empty) new list and an empty stored list, nothing
happens: the state is unchanged and no reset is signalled. -/
theorem load_packages_noop (m : ModelState) (f : Bool)
    (op : Option (List Package)) (hop : op.getD [] = [])
    (h : m.all_packages = []) :
    load_packages m f op = (m, false) := by
  obtain ⟨ap, pk, pm⟩ := m
  cases ap with
  | cons a t => exact absurd h (List.cons_ne_nil a t)
  | nil =>
      cases op with
      | none => rfl
      | some l =>
          have hl : l = [] := hop
          subst hl
          rfl

/-- Re-indexing only touches the `index` field. -/
theorem reindexRequested_core (l : List Package) (k : Nat) :
    (reindexRequested l k).map Package.core = l.map Package.core := by
  induction l generalizing k with
  | nil => rfl
  | cons p ps ih =>
      cases hp : p.requested with
      | true => simp [reindexRequested, hp, ih, Package.core]
      | false => simp [reindexRequested, hp, ih]

/-- Index assignment only touches the `index` field. -/
theorem assignIndicesFrom_core (l : List Package) (k : Nat) :
    (assignIndicesFrom k l).map Package.core = l.map Package.core := by
  induction l generalizing k with
  | nil => rfl
  | cons p ps ih => simp [assignIndicesFrom, ih, Package.core]

/-- The displayed (filtered) view of the re-indexed full list is the
filtered list with sequential indices assigned. -/
theorem filter_reindexRequested (l : List Package) (k : Nat) :
    (reindexRequested l k).filter (fun p => p.requested) =
      assignIndicesFrom k (l.filter (fun p => p.requested)) := by
  induction l generalizing k with
  | nil => rfl
  | cons p ps ih =>
      cases hp : p.requested with
      | true => simp [reindexRequested, hp, List.filter_cons, assignIndicesFrom, ih]
      | false => simp [reindexRequested, hp, List.filter_cons, ih]

/-- Re-indexing preserves length. -/
theorem reindexRequested_length (l : List Package) (k : Nat) :
    (reindexRequested l k).length = l.length := by
  induction l generalizing k with
  | nil => rfl
  | cons p ps ih =>
      cases hp : p.requested with
      | true => simp [reindexRequested, hp, ih]
      | false => simp [reindexRequested, hp, ih]

/-- Index assignment preserves length. -/
theorem assignIndicesFrom_length (l : List Package) (k : Nat) :
    (assignIndicesFrom k l).length = l.length := by
  induction l generalizing k with
  | nil => rfl
  | cons p ps ih => simp [assignIndicesFrom, ih]

/-- Element `j` of `assignIndicesFrom k l` is element `j` of `l` with its
index set to `k + j`. -/
theorem assignIndicesFrom_getD (l : List Package) (k j : Nat) (h : j < l.length) :
    (assignIndicesFrom k l).getD j default =
      { l.getD j default with index := some (k + j) } := by
  induction l generalizing k j with
  | nil => simp at h
  | cons p ps ih =>
      cases j with
      | zero => simp [assignIndicesFrom]
      | succ j =>
          have hj : j < ps.length := Nat.lt_of_succ_lt_succ h
          have e1 : (assignIndicesFrom k (p :: ps)).getD (j + 1) default
              = (assignIndicesFrom (k + 1) ps).getD j default := rfl
          have hk : (k + 1) + j = k + (j + 1) := by omega
          rw [e1, ih (k + 1) j hj, List.getD_cons_succ, hk]

/-- Element `i` of `reindexRequested l k`: a requested record receives
`k` plus its position among the requested records before it; a
non-requested record is untouched. -/
theorem reindexRequested_getD (l : List Package) (k i : Nat) (h : i < l.length) :
    (reindexRequested l k).getD i default =
      (if (l.getD i default).requested then
        { l.getD i default with
          index := some (k + ((l.take i).filter (fun p => p.requested)).length) }
      else l.getD i default) := by
  induction l generalizing k i with
  | nil => simp at h
  | cons p ps ih =>
      cases i with
      | zero =>
          cases hp : p.requested with
          | true => simp [reindexRequested, hp]
          | false => simp [reindexRequested, hp]
      | succ i =>
          have hi : i < ps.length := Nat.lt_of_succ_lt_succ h
          cases hp : p.requested with
          | true =>
              have e1 : (reindexRequested (p :: ps) k).getD (i + 1) default
                  = (reindexRequested ps (k + 1)).getD i default := by
                simp [reindexRequested, hp]
              have e2 : ((p :: ps).take (i + 1)).filter (fun p => p.requested)
                  = p :: (ps.take i).filter (fun p => p.requested) := by
                simp [List.take_succ_cons, List.filter_cons, hp]
              have hk : (k + 1) + ((ps.take i).filter
                    (fun p => p.requested)).length
                  = k + (((ps.take i).filter (fun p => p.requested)).length + 1) := by
                omega
              rw [e1, ih (k + 1) i hi, List.getD_cons_succ, e2,
                List.length_cons, hk]
          | false =>
              have e1 : (reindexRequested (p :: ps) k).getD (i + 1) default
                  = (reindexRequested ps k).getD i default := by
                simp [reindexRequested, hp]
              have e2 : ((p :: ps).take (i + 1)).filter (fun p => p.requested)
                  = (ps.take i).filter (fun p => p.requested) := by
                simp [List.take_succ_cons, List.filter_cons, hp]
              rw [e1, ih k i hi, List.getD_cons_succ, e2]

/-- Inserting a fresh key appends. -/
theorem dictInsert_append (acc : List (String × Package)) (k : String)
    (v : Package) (h : ∀ e ∈ acc, e.1 ≠ k) :
    dictInsert acc k v = acc ++ [(k, v)] := by
  have hany : acc.any (fun e => decide (e.1 = k)) = false := by
    simp only [List.any_eq_false, decide_eq_true_eq]
    exact h
  simp [dictInsert, hany]

/-- Folding dict insertion over records with pairwise-distinct names (all
fresh for the accumulator) appends the association pairs in order. -/
theorem foldl_dictInsert (l : List Package) (acc : List (String × Package))
    (hdisj : ∀ p ∈ l, ∀ e ∈ acc, e.1 ≠ p.name)
    (h : (l.map Package.name).Nodup) :
    l.foldl (fun m p => dictInsert m p.name p) acc =
      acc ++ l.map (fun p => (p.name, p)) := by
  induction l generalizing acc with
  | nil => simp
  | cons p ps ih =>
      rw [List.map_cons, List.nodup_cons] at h
      rw [List.foldl_cons,
        dictInsert_append acc p.name p
          (fun e he => hdisj p (List.mem_cons_self p ps) e he)]
      rw [ih (acc ++ [(p.name, p)]) ?_ h.2]
      · simp
      · intro q hq e he
        rcases List.mem_append.1 he with h1 | h2
        · exact hdisj q (List.mem_cons_of_mem p hq) e h1
        · have he2 : e = (p.name, p) := by simpa using h2
          subst he2
          intro hcontra
          have hpq : p.name = q.name := hcontra
          exact h.1 (hpq ▸ List.mem_map_of_mem Package.name hq)

/-- With pairwise-distinct names, the dict comprehension is exactly the
list of `(name, record)` pairs in display order. -/
theorem dictOfList_eq (l : List Package) (h : (l.map Package.name).Nodup) :
    dictOfList l = l.map (fun p => (p.name, p)) := by
  have := foldl_dictInsert l [] (by simp) h
  simpa [dictOfList] using this

/-!  Claim theorems. -/

/-- C1: the claim says that after a load that installs a list the
displayed sequence held by the model is sorted ascending by name.  The
code is wrong: `load_packages([{name:"b",..},{name:"a",..}])` calls
`sortByColumn(NAME, Qt.AscendingOrder)`, but `EnvironmentPackagesModel`
never overrides the no-op `QAbstractTableModel.sort` and no proxy model is
installed, so the displayed sequence stays in input order `["b", "a"]`
and is not sorted ascending by name. -/
theorem C1_sort_never_happens :
    (load_packages initialModel false (some [pkgB, pkgA])).1.packages.map
        Package.name = ["b", "a"]
    ∧ ¬ sortedByNameAsc
        (load_packages initialModel false (some [pkgB, pkgA])).1.packages :=
  ⟨rfl, by decide⟩

/-- C2: the claim says no context menu appears for a right-click that
hits no displayed row.  The code is wrong: `rowAt` returns `-1` for such
a click, and Python's `packages[-1]` silently selects the *last* record,
so with a single requested package loaded, a click below all rows pops
the full three-action menu for that package. -/
theorem C2_menu_on_row_miss :
    contextMenuEvent (load_packages initialModel false (some [pkgReq])).1 (-1)
      = MenuOutcome.menu
          [(UpdatePackage, { pkgReq with index := some 0 }),
           (UninstallPackage, { pkgReq with index := some 0 }),
           (InstallPackageVersion, { pkgReq with index := some 0 })] := rfl

/-- C3 counterexample: the claim quantifies over *every* input list `ps`,
but for `ps = []` after a previous load stored a package, the displayed
collection is the filtered *stored* list, not the empty requested
subsequence of `ps`. -/
theorem C3_counterexample :
    (load_packages (load_packages initialModel false (some [pkgReq])).1 true
        (some [])).1.packages.map Package.core
      ≠ (([] : List Package).filter (fun p => p.requested)).map Package.core :=
  by decide

/-- C3 (amended): for every NON-empty input list `ps`,
`load_packages(only_requested=True, packages=ps)` displays exactly the
requested records of `ps` in their original relative order (the records'
`index` fields are mutated by the load, so the comparison is on the
backend-supplied fields). -/
theorem C3_filter_requested (st : ModelState) (ps : List Package)
    (h : ps ≠ []) :
    (load_packages st true (some ps)).1.packages.map Package.core
      = (ps.filter (fun p => p.requested)).map Package.core := by
  rw [load_packages_some_ne st true ps h]
  show ((reindexRequested ps 0).filter (fun p => p.requested)).map Package.core
      = _
  rw [filter_reindexRequested, assignIndicesFrom_core]

/-- C3 witness: the amended theorem applied to a concrete non-empty list. -/
theorem C3_witness :
    (([pkgReq, pkgB] : List Package) ≠ [])
    ∧ (load_packages initialModel true (some [pkgReq, pkgB])).1.packages.map
        Package.core
      = ([pkgReq, pkgB].filter (fun p => p.requested)).map Package.core :=
  ⟨List.cons_ne_nil _ _,
    C3_filter_requested initialModel [pkgReq, pkgB] (List.cons_ne_nil _ _)⟩

/-- C5: a call with no new list after a previous load stored a (non-empty)
full list produces the same state as supplying that stored list. -/
theorem C5_reuse_stored (m : ModelState) (f : Bool)
    (h : m.all_packages ≠ []) :
    load_packages m f none = load_packages m f (some m.all_packages) :=
  load_packages_fallback m f none rfl h

/-- C5 witness: the theorem applied to a concrete stored list. -/
theorem C5_witness :
    ((ModelState.mk [pkgReq] [] []).all_packages ≠ [])
    ∧ load_packages ⟨[pkgReq], [], []⟩ true none
      = load_packages ⟨[pkgReq], [], []⟩ true
          (some (ModelState.mk [pkgReq] [] []).all_packages) :=
  ⟨List.cons_ne_nil _ _,
    C5_reuse_stored ⟨[pkgReq], [], []⟩ true (List.cons_ne_nil _ _)⟩

/-- C10 counterexample: the claim's consequence "the table cannot be
cleared through load_packages" is false: after loading a single
non-requested package, a reload with `only_requested=True` (no list
passed at all) empties the displayed collection. -/
theorem C10_counterexample :
    ((load_packages initialModel false (some [pkgNoReq])).1.packages ≠ [])
    ∧ (load_packages (load_packages initialModel false (some [pkgNoReq])).1
        true none).1.packages = [] :=
  ⟨by decide, rfl⟩

/-- C10 (amended): with `packages=None` (or an empty list, which is
treated the same) and an empty stored full list, `load_packages` leaves
the whole state unchanged and signals no reset; an empty list behaves
exactly like passing no list, and never replaces the stored full list
(whose backend-supplied fields are preserved by any such call), so the
table cannot be cleared by passing an empty list. -/
theorem C10_empty_list_inert (st : ModelState) (f : Bool) :
    (st.all_packages = [] →
      load_packages st f none = (st, false)
      ∧ load_packages st f (some []) = (st, false))
    ∧ load_packages st f (some []) = load_packages st f none
    ∧ (load_packages st f (some [])).1.all_packages.map Package.core
        = st.all_packages.map Package.core := by
  refine ⟨fun h => ⟨load_packages_noop st f none rfl h,
    load_packages_noop st f (some []) rfl h⟩, rfl, ?_⟩
  by_cases h : st.all_packages = []
  · rw [load_packages_noop st f (some []) rfl h]
  · rw [load_packages_fallback st f (some []) rfl h,
      load_packages_some_ne st f st.all_packages h]
    cases f
    · show (assignIndicesFrom 0 st.all_packages).map Package.core = _
      exact assignIndicesFrom_core _ _
    · show (reindexRequested st.all_packages 0).map Package.core = _
      exact reindexRequested_core _ _

/-- C10 witness: the amended theorem applied to the empty initial state. -/
theorem C10_witness :
    initialModel.all_packages = []
    ∧ load_packages initialModel true none = (initialModel, false) :=
  ⟨rfl, ((C10_empty_list_inert initialModel true).1 rfl).1⟩

/-- C4: for every row in `[0, rowCount)` and every column in `{0, 1, 2}`,
`data` under the display role returns the corresponding field (name,
description, version) of `packages[row]`. -/
theorem C4_data_display_fields (m : ModelState) (row : Nat)
    (h : row < rowCount m) :
    modelData m ⟨(row : Int), NAME⟩ Role.display
        = QVariant.str (m.packages.getD row default).name
    ∧ modelData m ⟨(row : Int), DESCRIPTION⟩ Role.display
        = QVariant.str (m.packages.getD row default).description
    ∧ modelData m ⟨(row : Int), VERSION⟩ Role.display
        = QVariant.str (m.packages.getD row default).version := by
  have hlen : row < m.packages.length := h
  have hrow : (0 : Int) ≤ (row : Int) := Int.ofNat_nonneg row
  have hlt : (row : Int) < (m.packages.length : Int) := by exact_mod_cast hlen
  refine ⟨?_, ?_, ?_⟩ <;>
    simp [modelData, MIndex.isValid, NAME, DESCRIPTION, VERSION, hrow, hlt]

/-- C4 witness: the theorem applied to a one-row model. -/
theorem C4_witness :
    (0 < rowCount ⟨[], [pkgA], []⟩)
    ∧ modelData ⟨[], [pkgA], []⟩ ⟨((0 : Nat) : Int), NAME⟩ Role.display
        = QVariant.str (([pkgA] : List Package).getD 0 default).name :=
  ⟨by decide, (C4_data_display_fields ⟨[], [pkgA], []⟩ 0 (by decide)).1⟩

/-- C6: after any load that installs a list (a reset was signalled), and
assuming the displayed names are pairwise distinct, the name lookup is
exactly one entry per displayed package, keyed by that package's name and
mapping to that package's record, in display order. -/
theorem C6_map_reflects_displayed (m : ModelState) (f : Bool)
    (op : Option (List Package))
    (hreset : (load_packages m f op).2 = true)
    (hnodup : ((load_packages m f op).1.packages.map Package.name).Nodup) :
    (load_packages m f op).1.packages_map
      = (load_packages m f op).1.packages.map (fun p => (p.name, p)) := by
  by_cases hpa : op.getD [] = []
  · by_cases hall : m.all_packages = []
    · rw [load_packages_noop m f op hpa hall] at hreset
      simp at hreset
    · rw [load_packages_fallback m f op hpa hall,
        load_packages_some_ne m f m.all_packages hall] at hnodup ⊢
      exact dictOfList_eq _ hnodup
  · cases op with
    | none => exact absurd rfl hpa
    | some ps =>
        have hps : ps ≠ [] := hpa
        rw [load_packages_some_ne m f ps hps] at hnodup ⊢
        exact dictOfList_eq _ hnodup

/-- C6 witness: the theorem applied to a concrete two-package load. -/
theorem C6_witness :
    ((load_packages initialModel false (some [pkgB, pkgA])).2 = true)
    ∧ (((load_packages initialModel false
        (some [pkgB, pkgA])).1.packages.map Package.name).Nodup)
    ∧ (load_packages initialModel false (some [pkgB, pkgA])).1.packages_map
      = (load_packages initialModel false (some [pkgB, pkgA])).1.packages.map
          (fun p => (p.name, p)) :=
  ⟨rfl, by decide,
    C6_map_reflects_displayed initialModel false (some [pkgB, pkgA]) rfl
      (by decide)⟩

/-- C7: for a non-empty displayed list, `next_row` from the last row
selects row 0 and otherwise selects the successor; `previous_row` from
row 0 selects the last row and otherwise selects the predecessor. -/
theorem C7_wraparound (m : ModelState) (r : Int)
    (hne : m.packages ≠ []) (h0 : 0 ≤ r)
    (hlt : r < (rowCount m : Int)) :
    (r = (rowCount m : Int) - 1 → next_row m r = 0)
    ∧ (r < (rowCount m : Int) - 1 → next_row m r = r + 1)
    ∧ (r = 0 → previous_row m r = (rowCount m : Int) - 1)
    ∧ (0 < r → previous_row m r = r - 1) := by
  simp only [next_row, previous_row, rowCount] at hlt ⊢
  refine ⟨fun hc => ?_, fun hc => ?_, fun hc => ?_, fun hc => ?_⟩ <;>
    split_ifs <;> omega

/-- C7 witness: wrap-around from the last row of a two-row model. -/
theorem C7_witness :
    ((ModelState.mk [] [pkgA, pkgB] []).packages ≠ [])
    ∧ next_row ⟨[], [pkgA, pkgB], []⟩ 1 = 0 :=
  ⟨List.cons_ne_nil _ _,
    (C7_wraparound ⟨[], [pkgA, pkgB], []⟩ 1 (List.cons_ne_nil _ _)
      (by decide) (by decide)).1 (by decide)⟩

/-- C8: `data` returns the empty value for any row outside
`[0, rowCount)` (any column, any role), and for a valid row but a column
outside `{NAME, DESCRIPTION, VERSION}` under the display role. -/
theorem C8_out_of_range (m : ModelState) (row col : Int) (role : Role) :
    ((row < 0 ∨ (rowCount m : Int) ≤ row) →
      modelData m ⟨row, col⟩ role = QVariant.empty)
    ∧ (0 ≤ row → row < (rowCount m : Int) →
      ¬ (col = NAME ∨ col = DESCRIPTION ∨ col = VERSION) →
      modelData m ⟨row, col⟩ Role.display = QVariant.empty) := by
  constructor
  · intro hr
    simp only [modelData]
    rcases hr with hr | hr
    · rw [if_pos (Or.inl (by
        simp only [MIndex.isValid, Bool.and_eq_true, decide_eq_true_eq]
        omega))]
    · rw [if_pos (Or.inr (by
        simp only [rowCount] at hr
        omega))]
  · intro h0 hlt hcol
    push_neg at hcol
    simp only [rowCount] at hlt
    by_cases hc0 : col < 0
    · simp only [modelData]
      rw [if_pos (Or.inl (by
        simp only [MIndex.isValid, Bool.and_eq_true, decide_eq_true_eq]
        omega))]
    · simp only [modelData]
      rw [if_neg (by
        simp only [MIndex.isValid, Bool.and_eq_true, decide_eq_true_eq,
          not_or, not_not]
        exact ⟨⟨h0, by omega⟩, h0, hlt⟩)]
      simp [NAME, DESCRIPTION, VERSION] at hcol
      simp [hcol.1, hcol.2.1, hcol.2.2, NAME, DESCRIPTION, VERSION]

/-- C8 witness: a row past the end and an out-of-range column both give
the empty value on a one-row model. -/
theorem C8_witness :
    ((5 : Int) < 0 ∨ (rowCount ⟨[], [pkgA], []⟩ : Int) ≤ 5)
    ∧ modelData ⟨[], [pkgA], []⟩ ⟨5, 0⟩ Role.display = QVariant.empty
    ∧ modelData ⟨[], [pkgA], []⟩ ⟨0, 3⟩ Role.display = QVariant.empty :=
  ⟨Or.inr (by decide),
    (C8_out_of_range ⟨[], [pkgA], []⟩ 5 0 Role.display).1 (Or.inr (by decide)),
    (C8_out_of_range ⟨[], [pkgA], []⟩ 0 3 Role.display).2 (by decide)
      (by decide) (by decide)⟩

/-- C9: a load with `only_requested=True` and a non-empty list assigns
each displayed record's `index` its position in the displayed list, and —
because the displayed records are the very objects stored in
`all_packages` — overwrites the `index` of each requested entry of
`all_packages` with its position in the filtered list while leaving every
non-requested entry (including any stale `index` it may hold) untouched. -/
theorem C9_index_aliasing (st : ModelState) (ps : List Package)
    (h : ps ≠ []) :
    ((load_packages st true (some ps)).1.all_packages.length = ps.length)
    ∧ (∀ j, j < (load_packages st true (some ps)).1.packages.length →
        ((load_packages st true (some ps)).1.packages.getD j default).index
          = some j)
    ∧ (∀ i, i < ps.length → (ps.getD i default).requested →
        (load_packages st true (some ps)).1.all_packages.getD i default
          = { ps.getD i default with
              index := some (((ps.take i).filter
                (fun p => p.requested)).length) })
    ∧ (∀ i, i < ps.length → ¬ (ps.getD i default).requested →
        (load_packages st true (some ps)).1.all_packages.getD i default
          = ps.getD i default) := by
  rw [load_packages_some_ne st true ps h]
  refine ⟨reindexRequested_length ps 0, ?_, ?_, ?_⟩
  · intro j hj
    have hj2 : j < (assignIndicesFrom 0
        (ps.filter (fun p => p.requested))).length := by
      rw [← filter_reindexRequested]
      exact hj
    have hj3 : j < (ps.filter (fun p => p.requested)).length := by
      rwa [assignIndicesFrom_length] at hj2
    show (((reindexRequested ps 0).filter
        (fun p => p.requested)).getD j default).index = some j
    rw [filter_reindexRequested, assignIndicesFrom_getD _ 0 j hj3]
    simp
  · intro i hi hreq
    show (reindexRequested ps 0).getD i default = _
    rw [reindexRequested_getD ps 0 i hi, if_pos hreq]
    simp
  · intro i hi hreq
    show (reindexRequested ps 0).getD i default = _
    rw [reindexRequested_getD ps 0 i hi, if_neg hreq]

/-- C9 witness: on `[pkgB, pkgA]` (non-requested then requested), the
requested entry of `all_packages` receives index 0 — its position in the
filtered list, not its position 1 in the full list. -/
theorem C9_witness :
    (([pkgB, pkgA] : List Package) ≠ [])
    ∧ (load_packages initialModel true
        (some [pkgB, pkgA])).1.all_packages.getD 1 default
      = { pkgA with index := some 0 } :=
  ⟨List.cons_ne_nil _ _,
    (C9_index_aliasing initialModel [pkgB, pkgA]
      (List.cons_ne_nil _ _)).2.2.1 1 (by decide) (by decide)⟩

end PackagesTable
